import Mathlib

/-!
Verification of the core of the `shmhxh_s_clutter` repository (a Python
utility toolbox): a shallow embedding in Lean 4 of

* the shared data store `DataSharer`
  (`src/python_toolbox/tools/system_tools/data_sharer.py`), and
* the plugin registry scan `load_tools` (`src/python_toolbox/main.py`).

Python dictionaries are embedded as insertion-ordered association lists
with dictionary update semantics (an assignment to an existing key keeps
its position, a new key is appended, deletion removes the key).  JSON
values are embedded structurally by the inductive `Val`; the Python value
`None` is `Val.null`.  The persisted JSON file is embedded structurally as
`Option FileDoc` (present file holding a document, or absent); JSON
(de)serialisation of a document is the identity in this model, matching
`json.dump`/`json.load` round-tripping on string-keyed JSON documents.
`datetime.now().isoformat()` timestamps are supplied as explicit `String`
arguments.  I/O success or failure of a write is supplied as an explicit
`Bool` argument (`ioOk`), covering the `try`/`except` around the file
write in `_save_shared_data`.
-/

set_option autoImplicit false

namespace Toolbox

/-- JSON-compatible Python values (`None`, `bool`, `int`, `str`, `list`,
`dict`), embedding the values the store holds.  Python floats are omitted:
floating point is outside the embedding, and no claim needs them. -/
inductive Val where
  | null : Val
  | bool (b : Bool) : Val
  | int (n : Int) : Val
  | str (s : String) : Val
  | list (elems : List Val) : Val
  | obj (fields : List (String × Val)) : Val

/-- Lookup in a Python-dict-as-association-list: the value at the first
matching key. -/
def lookupKey {α : Type} : List (String × α) → String → Option α
  | [], _ => none
  | (k, v) :: rest, key => if k = key then some v else lookupKey rest key

/-- Python dict assignment `d[key] = v`: replace the value at an existing
key in place, otherwise append the new key at the end (insertion order). -/
def setKey {α : Type} : List (String × α) → String → α → List (String × α)
  | [], key, v => [(key, v)]
  | (k, w) :: rest, key, v =>
      if k = key then (key, v) :: rest else (k, w) :: setKey rest key v

/-- Python dict deletion `del d[key]`: remove the key's entries. -/
def eraseKey {α : Type} : List (String × α) → String → List (String × α)
  | [], _ => []
  | (k, v) :: rest, key =>
      if k = key then eraseKey rest key else (k, v) :: eraseKey rest key

/-- A current entry of `_shared_data[key]`: the dict
`{'value': ..., 'tool': ..., 'description': ..., 'timestamp': ...}`
built in `DataSharer.set_data`. -/
structure Entry where
  value : Val
  tool : Option String
  description : String
  timestamp : String

/-- A history record of `_data_history[key]`: the dict
`{'value': ..., 'tool': ..., 'timestamp': ...}` appended in
`DataSharer.set_data`. -/
structure HistEntry where
  value : Val
  tool : Option String
  timestamp : String

/-- The module-level mutable state of `data_sharer.py`: the dicts
`_shared_data` and `_data_history`. -/
structure SharerState where
  shared_data : List (String × Entry)
  data_history : List (String × List HistEntry)

/-- The document `_save_shared_data` writes to `shared_data.json`:
`{'shared_data': ..., 'data_history': ..., 'last_updated': ...}`. -/
structure FileDoc where
  shared_data : List (String × Entry)
  data_history : List (String × List HistEntry)
  last_updated : String

/-- The world a `DataSharer` acts on: the in-memory state and the
persisted `shared_data.json` file (`none` when the file is absent). -/
structure World where
  mem : SharerState
  file : Option FileDoc

/-- `DataSharer._load_shared_data`: read `shared_data` and `data_history`
from the file when it exists, otherwise keep the empty module-level
dicts.  A parse failure also resets both dicts to empty; in this
structural model a present file always parses. -/
def load_shared_data (file : Option FileDoc) : SharerState :=
  match file with
  | some d => { shared_data := d.shared_data, data_history := d.data_history }
  | none => { shared_data := [], data_history := [] }

/-- `DataSharer.__init__` in a fresh process: load the state from the
given file. -/
def fresh_sharer (file : Option FileDoc) : World :=
  { mem := load_shared_data file, file := file }

/-- `DataSharer._save_shared_data`: write the whole document (current
values, all histories, `last_updated` timestamp) to the file and return
`True`; on an I/O error (`ioOk = false`) report `False` to the caller,
leaving the previous file contents behind in this end-state model. -/
def save_shared_data (ioOk : Bool) (ts : String) (w : World) : Bool × World :=
  if ioOk then
    (true, { w with file := some { shared_data := w.mem.shared_data,
                                   data_history := w.mem.data_history,
                                   last_updated := ts } })
  else
    (false, w)

/-- The history trimming in `DataSharer.set_data`:
`if len(h) > 10: h = h[-10:]`. -/
def trimHistory (h : List HistEntry) : List HistEntry :=
  if h.length > 10 then h.drop (h.length - 10) else h

/-- `DataSharer.set_data key value tool description`: upsert the current
entry, append to the key's history (creating it if absent), trim the
history to the 10 most recent records, then persist; returns the save's
boolean outcome. -/
def set_data (ioOk : Bool) (ts : String) (key : String) (value : Val)
    (tool : Option String) (description : String) (w : World) :
    Bool × World :=
  let shared := setKey w.mem.shared_data key
    { value := value, tool := tool, description := description,
      timestamp := ts }
  let oldHist := (lookupKey w.mem.data_history key).getD []
  let newHist := trimHistory (oldHist ++ [{ value := value, tool := tool,
                                            timestamp := ts }])
  let hist := setKey w.mem.data_history key newHist
  save_shared_data ioOk ts
    { w with mem := { shared_data := shared, data_history := hist } }

/-- `DataSharer.get_data key`: the current value at `key`, or Python
`None` (here `Val.null`) when the key is absent. -/
def get_data (w : World) (key : String) : Val :=
  match lookupKey w.mem.shared_data key with
  | some e => e.value
  | none => Val.null

/-- `DataSharer.get_data_info key`: the whole current entry, or `None`
when absent. -/
def get_data_info (w : World) (key : String) : Option Entry :=
  lookupKey w.mem.shared_data key

/-- `DataSharer.list_all_data`: the whole current-value dict. -/
def list_all_data (w : World) : List (String × Entry) :=
  w.mem.shared_data

/-- `DataSharer.delete_data key`: on a present key remove it and persist
(returning the save's outcome); on an absent key do nothing and return
`False`. -/
def delete_data (ioOk : Bool) (ts : String) (key : String) (w : World) :
    Bool × World :=
  match lookupKey w.mem.shared_data key with
  | some _ =>
      save_shared_data ioOk ts
        { w with mem := { shared_data := eraseKey w.mem.shared_data key,
                          data_history := w.mem.data_history } }
  | none => (false, w)

/-- `DataSharer.clear_all_data`: reset `_shared_data` to the empty dict
(leaving `_data_history` untouched) and persist. -/
def clear_all_data (ioOk : Bool) (ts : String) (w : World) : Bool × World :=
  save_shared_data ioOk ts
    { w with mem := { shared_data := [], data_history := w.mem.data_history } }

/-- `DataSharer.get_history key`: the key's history list, or the empty
list when the key has none. -/
def get_history (w : World) (key : String) : List HistEntry :=
  (lookupKey w.mem.data_history key).getD []

/-- One mutating operation on the store, with its ambient inputs
(I/O outcome and timestamp). -/
inductive Op where
  | set (ioOk : Bool) (ts : String) (key : String) (value : Val)
      (tool : Option String) (description : String) : Op
  | delete (ioOk : Bool) (ts : String) (key : String) : Op
  | clear (ioOk : Bool) (ts : String) : Op

/-- Apply one operation, discarding its boolean result. -/
def applyOp (op : Op) (w : World) : World :=
  match op with
  | .set ioOk ts key value tool description =>
      (set_data ioOk ts key value tool description w).2
  | .delete ioOk ts key => (delete_data ioOk ts key w).2
  | .clear ioOk ts => (clear_all_data ioOk ts w).2

/-- Apply a sequence of operations left to right. -/
def applyOps (ops : List Op) (w : World) : World :=
  match ops with
  | [] => w
  | op :: rest => applyOps rest (applyOp op w)

/-- Whether an operation leaves the current entry at `key` untouched:
sets and deletes of other keys do, a clear does not. -/
def opAvoids (op : Op) (key : String) : Bool :=
  match op with
  | .set _ _ k _ _ _ => k ≠ key
  | .delete _ _ k => k ≠ key
  | .clear _ _ => false

/-- The arguments of one `set_data` call on a fixed key. -/
structure SetArg where
  value : Val
  tool : Option String
  description : String
  ts : String

/-- The history record a `set_data` call with these arguments appends. -/
def SetArg.toHist (a : SetArg) : HistEntry :=
  { value := a.value, tool := a.tool, timestamp := a.ts }

/-- A sequence of `set_data` calls on the same key. -/
def setMany (ioOk : Bool) (key : String) (args : List SetArg) (w : World) :
    World :=
  applyOps (args.map (fun a => Op.set ioOk a.ts key a.value a.tool
    a.description)) w

/-- A content state of `shared_data.json` observable by a concurrent
reader while `_save_shared_data` runs. -/
inductive FileObs where
  | doc (d : FileDoc) : FileObs
  | truncated : FileObs

/-- Whether an observed file state is a complete document. -/
def FileObs.isCompleteDoc : FileObs → Bool
  | .doc _ => true
  | .truncated => false

/-- The file states a reader can observe during one successful save, in
order: `_save_shared_data` opens the file with mode `'w'` — truncating it
in place — and then `json.dump` fills it with the new document.  There is
no write-to-temporary-and-rename step in the source. -/
def save_observable_states (newDoc : FileDoc) : List FileObs :=
  [FileObs.truncated, FileObs.doc newDoc]

/-- Python `name.startswith(pre)`, structurally over the character
sequence of the name. -/
def pyStartsWith (s pre : String) : Bool :=
  pre.data.isPrefixOf s.data

/-- Python `name.endswith(post)`, structurally over the character
sequence of the name. -/
def pyEndsWith (s post : String) : Bool :=
  post.data.isSuffixOf s.data

/-- Python slicing `name[:-n]` (for `n ≤ len(name)`): drop the last `n`
characters. -/
def pyDropRight (s : String) (n : Nat) : String :=
  ⟨s.data.take (s.data.length - n)⟩

/-- One immediate child of the `tools` directory, as `os.listdir` plus
`os.path.isdir` see it: a subdirectory with its own file listing, or a
plain file. -/
inductive FsEntry where
  | dir (name : String) (files : List String) : FsEntry
  | file (name : String) : FsEntry

/-- The module path `load_tools` imports a tool under:
`python_toolbox.tools.{category}.{toolname}`. -/
def modPath (category toolname : String) : String :=
  "python_toolbox.tools." ++ category ++ "." ++ toolname

/-- The running state of the `load_tools` scan: the two-level result
dict `tools` (loaded modules are represented by their module path) and
the `loaded_files` / `failed_files` counters. -/
structure LoadState where
  tools : List (String × List (String × String))
  loaded : Nat
  failed : Nat

/-- The inner-dict assignment `tools[cat][tool] = module` of `load_tools`
(`load_tools` always initialises `tools[cat]` before reaching it). -/
def setInner (tools : List (String × List (String × String)))
    (cat tool path : String) : List (String × List (String × String)) :=
  setKey tools cat (setKey ((lookupKey tools cat).getD []) tool path)

/-- The inner loop of `load_tools` over one category's files: for each
name ending in `.py` and not starting with `__`, strip the suffix
and import `python_toolbox.tools.{cat}.{tool}`; a successful import
(`importOk cat tool`) is recorded in the dict and counted as loaded, a
raising import is counted as failed and skipped — the loop continues
with the remaining files either way. -/
def loadFiles (importOk : String → String → Bool) (cat : String) :
    List String → LoadState → LoadState
  | [], st => st
  | f :: rest, st =>
      if pyEndsWith f ".py" && !(pyStartsWith f "__") then
        let tool := pyDropRight f 3
        if importOk cat tool then
          loadFiles importOk cat rest
            { st with tools := setInner st.tools cat tool (modPath cat tool),
                      loaded := st.loaded + 1 }
        else
          loadFiles importOk cat rest { st with failed := st.failed + 1 }
      else
        loadFiles importOk cat rest st

/-- The outer loop of `load_tools` over `os.listdir(tools_dir)`: each
child that is a directory and does not start with `__` becomes a
category, initialised to an empty inner dict and filled by the inner
loop; plain files and `__`-prefixed directories are skipped. -/
def loadCats (importOk : String → String → Bool) :
    List FsEntry → LoadState → LoadState
  | [], st => st
  | .file _ :: rest, st => loadCats importOk rest st
  | .dir name files :: rest, st =>
      if !(pyStartsWith name "__") then
        loadCats importOk rest
          (loadFiles importOk name files
            { st with tools := setKey st.tools name [] })
      else
        loadCats importOk rest st

/-- `load_tools` of `main.py`: scan the given listing of the tools
directory, importing each eligible script; `importOk cat tool` tells
whether `import_module` succeeds for that script. -/
def load_tools (importOk : String → String → Bool)
    (listing : List FsEntry) : LoadState :=
  loadCats importOk listing { tools := [], loaded := 0, failed := 0 }

/-- The file names of one directory that the scan considers:
ending in `.py` and not starting with `__`. -/
def eligibleFiles (files : List String) : List String :=
  files.filter (fun f => pyEndsWith f ".py" && !(pyStartsWith f "__"))

/-- The `(category, toolname)` pairs of all scripts the scan attempts
to import, in scan order. -/
def scannedScripts : List FsEntry → List (String × String)
  | [] => []
  | .file _ :: rest => scannedScripts rest
  | .dir name files :: rest =>
      if !(pyStartsWith name "__") then
        (eligibleFiles files).map (fun f => (name, pyDropRight f 3))
          ++ scannedScripts rest
      else
        scannedScripts rest

/-- The tool names a directory's file listing produces. -/
def toolNames (files : List String) : List String :=
  (eligibleFiles files).map (fun f => pyDropRight f 3)

/-- The inner mapping one category is expected to end up with: its
successfully imported tools, in file order, each mapped to its module
path. -/
def okEntries (importOk : String → String → Bool) (cat : String)
    (files : List String) : List (String × String) :=
  ((toolNames files).filter (importOk cat)).map
    (fun t => (t, modPath cat t))

/-- The mapping the scan is expected to build, computed directly: one
entry per non-`__` directory, holding the successfully imported tools of
its eligible files in order. -/
def expectedTools (importOk : String → String → Bool) :
    List FsEntry → List (String × List (String × String))
  | [] => []
  | .file _ :: rest => expectedTools importOk rest
  | .dir name files :: rest =>
      if !(pyStartsWith name "__") then
        (name, okEntries importOk name files) :: expectedTools importOk rest
      else
        expectedTools importOk rest

/-- The total number of tool entries in the two-level result mapping. -/
def mappingSize (tools : List (String × List (String × String))) : Nat :=
  (tools.map (fun p => p.2.length)).sum

/-- The names of the categories a listing produces (its non-`__`
directories), in order. -/
def catNames : List FsEntry → List String
  | [] => []
  | .file _ :: rest => catNames rest
  | .dir name _ :: rest =>
      if !(pyStartsWith name "__") then name :: catNames rest
      else catNames rest

/-- A directory entry whose eligible files map to pairwise-distinct tool
names (plain files pass vacuously) — as a real filesystem guarantees,
since `os.listdir` returns distinct names. -/
def dirOk : FsEntry → Bool
  | .dir _ files => decide (toolNames files).Nodup
  | .file _ => true

/-- A well-formed directory listing, as a real filesystem produces:
category names are pairwise distinct, and within each category the tool
names of its eligible files are pairwise distinct. -/
def goodListing (listing : List FsEntry) : Prop :=
  (catNames listing).Nodup ∧ ∀ e ∈ listing, dirOk e = true

/-! ### Association-list (Python dict) lemmas -/

theorem lookupKey_setKey_self {α : Type} (l : List (String × α))
    (k : String) (v : α) : lookupKey (setKey l k v) k = some v := by
  induction l with
  | nil => simp [setKey, lookupKey]
  | cons p rest ih =>
      by_cases h : p.1 = k
      · simp [setKey, lookupKey, h]
      · simpa [setKey, lookupKey, h] using ih

theorem lookupKey_setKey_ne {α : Type} (l : List (String × α))
    (k k' : String) (v : α) (h : k ≠ k') :
    lookupKey (setKey l k v) k' = lookupKey l k' := by
  induction l with
  | nil => simp [setKey, lookupKey, h]
  | cons p rest ih =>
      by_cases hp : p.1 = k
      · simp [setKey, lookupKey, hp, h]
      · simp only [setKey, hp, if_false, lookupKey]
        by_cases hp' : p.1 = k'
        · simp [hp']
        · simp [hp', ih]

theorem lookupKey_eraseKey_self {α : Type} (l : List (String × α))
    (k : String) : lookupKey (eraseKey l k) k = none := by
  induction l with
  | nil => simp [eraseKey, lookupKey]
  | cons p rest ih =>
      obtain ⟨a, b⟩ := p
      by_cases h : a = k
      · simpa [eraseKey, h] using ih
      · simpa [eraseKey, lookupKey, h] using ih

theorem lookupKey_eraseKey_ne {α : Type} (l : List (String × α))
    (k k' : String) (h : k ≠ k') :
    lookupKey (eraseKey l k) k' = lookupKey l k' := by
  induction l with
  | nil => simp [eraseKey, lookupKey]
  | cons p rest ih =>
      obtain ⟨a, b⟩ := p
      by_cases hp : a = k
      · have hp' : ¬a = k' := by rw [hp]; exact h
        simp [eraseKey, lookupKey, hp, hp', h, ih]
      · by_cases hp' : a = k'
        · simp [eraseKey, lookupKey, hp, hp', Ne.symm h]
        · simp [eraseKey, lookupKey, hp, hp', ih]

/-! ### Store-operation lemmas -/

theorem save_mem (ioOk : Bool) (ts : String) (w : World) :
    (save_shared_data ioOk ts w).2.mem = w.mem := by
  cases ioOk <;> rfl

theorem get_data_set_self (ioOk : Bool) (ts key : String) (value : Val)
    (tool : Option String) (descr : String) (w : World) :
    get_data (set_data ioOk ts key value tool descr w).2 key = value := by
  simp [get_data, set_data, save_mem, lookupKey_setKey_self]

theorem get_data_set_ne (ioOk : Bool) (ts key key' : String) (value : Val)
    (tool : Option String) (descr : String) (w : World) (h : key ≠ key') :
    get_data (set_data ioOk ts key value tool descr w).2 key' =
      get_data w key' := by
  simp [get_data, set_data, save_mem, lookupKey_setKey_ne _ _ _ _ h]

theorem get_history_set_self (ioOk : Bool) (ts key : String) (value : Val)
    (tool : Option String) (descr : String) (w : World) :
    get_history (set_data ioOk ts key value tool descr w).2 key =
      trimHistory (get_history w key ++
        [{ value := value, tool := tool, timestamp := ts }]) := by
  simp [get_history, set_data, save_mem, lookupKey_setKey_self]

theorem get_history_set_ne (ioOk : Bool) (ts key key' : String) (value : Val)
    (tool : Option String) (descr : String) (w : World) (h : key ≠ key') :
    get_history (set_data ioOk ts key value tool descr w).2 key' =
      get_history w key' := by
  simp [get_history, set_data, save_mem, lookupKey_setKey_ne _ _ _ _ h]

theorem get_history_delete (ioOk : Bool) (ts key key' : String) (w : World) :
    get_history (delete_data ioOk ts key w).2 key' = get_history w key' := by
  unfold delete_data
  cases lookupKey w.mem.shared_data key <;> simp [get_history, save_mem]

theorem get_history_clear (ioOk : Bool) (ts key : String) (w : World) :
    get_history (clear_all_data ioOk ts w).2 key = get_history w key := by
  simp [get_history, clear_all_data, save_mem]

theorem lookup_applyOp_avoid (op : Op) (key : String) (w : World)
    (h : opAvoids op key = true) :
    lookupKey (applyOp op w).mem.shared_data key =
      lookupKey w.mem.shared_data key := by
  cases op with
  | set ioOk ts k value tool descr =>
      have hk : k ≠ key := by simpa [opAvoids] using h
      simp [applyOp, set_data, save_mem, lookupKey_setKey_ne _ _ _ _ hk]
  | delete ioOk ts k =>
      have hk : k ≠ key := by simpa [opAvoids] using h
      unfold applyOp delete_data
      rcases hl : lookupKey w.mem.shared_data k with _ | e <;>
        simp [hl, save_mem, lookupKey_eraseKey_ne _ _ _ hk]
  | clear ioOk ts => simp [opAvoids] at h

theorem lookup_applyOps_avoid (ops : List Op) (key : String) (w : World)
    (h : ∀ op ∈ ops, opAvoids op key = true) :
    lookupKey (applyOps ops w).mem.shared_data key =
      lookupKey w.mem.shared_data key := by
  induction ops generalizing w with
  | nil => rfl
  | cons op rest ih =>
      rw [applyOps, ih _ (fun o ho => h o (List.mem_cons_of_mem op ho)),
        lookup_applyOp_avoid op key w (h op (List.mem_cons_self op rest))]

/-- C1: `set_data key value ...` followed — possibly after further
operations that do not mutate `key` — by `get_data key` returns exactly
the just-set value, whether or not any of the persistence steps
succeed. -/
theorem set_then_get_returns_value (ioOk : Bool) (ts key : String)
    (value : Val) (tool : Option String) (descr : String) (w : World)
    (ops : List Op) (h : ∀ op ∈ ops, opAvoids op key = true) :
    get_data (applyOps ops (set_data ioOk ts key value tool descr w).2)
      key = value := by
  unfold get_data
  rw [lookup_applyOps_avoid ops key _ h]
  have := get_data_set_self ioOk ts key value tool descr w
  unfold get_data at this
  exact this

/-- C1 witness: a concrete set on key `"a"`, an intervening set on key
`"b"`, then a get on `"a"` yields the value set on `"a"`. -/
theorem set_then_get_returns_value_w :
    get_data (applyOps [Op.set true "t1" "b" (Val.int 5) none ""]
      (set_data true "t0" "a" (Val.int 7) (some "tool") "d"
        (fresh_sharer none)).2) "a" = Val.int 7 :=
  set_then_get_returns_value true "t0" "a" (Val.int 7) (some "tool") "d"
    (fresh_sharer none) [Op.set true "t1" "b" (Val.int 5) none ""]
    (by decide)

/-- C3: `delete_data` on an absent key returns `False` and changes
nothing — neither the in-memory store nor the persisted file (no save is
performed); on a present key it removes the entry, so a subsequent
`get_data` returns Python `None`. -/
theorem delete_data_absent_present (ioOk : Bool) (ts key : String)
    (w : World) :
    (lookupKey w.mem.shared_data key = none →
      delete_data ioOk ts key w = (false, w)) ∧
    (∀ e : Entry, lookupKey w.mem.shared_data key = some e →
      get_data (delete_data ioOk ts key w).2 key = Val.null) := by
  constructor
  · intro h
    simp [delete_data, h]
  · intro e he
    simp [delete_data, he, get_data, save_mem, lookupKey_eraseKey_self]

/-- C3 witness: deleting `"k"` from an empty store returns `False` and
leaves the world unchanged; after setting `"k"`, deleting it makes
`get_data "k"` return `None`. -/
theorem delete_data_absent_present_w :
    delete_data true "t1" "k" (fresh_sharer none) = (false, fresh_sharer none) ∧
    get_data (delete_data true "t2" "k"
      (set_data true "t0" "k" (Val.int 3) none "" (fresh_sharer none)).2).2
      "k" = Val.null := by
  constructor
  · exact (delete_data_absent_present true "t1" "k" (fresh_sharer none)).1 rfl
  · exact (delete_data_absent_present true "t2" "k"
      (set_data true "t0" "k" (Val.int 3) none "" (fresh_sharer none)).2).2
      { value := Val.int 3, tool := none, description := "", timestamp := "t0" }
      rfl

/-- C4: in every state, `clear_all_data` empties the current-value
mapping — every subsequent `get_data` returns `None` and `list_all_data`
is empty — while `get_history` is unchanged at every key (history is
retained, not purged). -/
theorem clear_all_data_spec (ioOk : Bool) (ts : String) (w : World) :
    (∀ key, get_data (clear_all_data ioOk ts w).2 key = Val.null) ∧
    list_all_data (clear_all_data ioOk ts w).2 = [] ∧
    (∀ key, get_history (clear_all_data ioOk ts w).2 key =
      get_history w key) := by
  refine ⟨fun key => ?_, ?_, fun key => get_history_clear ioOk ts key w⟩
  · simp [get_data, clear_all_data, save_mem, lookupKey]
  · cases ioOk <;> rfl

/-- C7: when the persistence step fails (`ioOk = false`), `set_data`,
`delete_data` on a present key, and `clear_all_data` all return `False`,
yet the in-memory state keeps the already-applied mutation while the
on-disk file is left as it was — memory and disk diverge. -/
theorem mutation_kept_on_save_failure (ts tsd tsc key keyd : String)
    (value : Val) (tool : Option String) (descr : String)
    (w wd wc : World) (e : Entry)
    (hpres : lookupKey wd.mem.shared_data keyd = some e) :
    ((set_data false ts key value tool descr w).1 = false ∧
      get_data (set_data false ts key value tool descr w).2 key = value ∧
      (set_data false ts key value tool descr w).2.file = w.file) ∧
    ((delete_data false tsd keyd wd).1 = false ∧
      get_data (delete_data false tsd keyd wd).2 keyd = Val.null ∧
      (delete_data false tsd keyd wd).2.file = wd.file) ∧
    ((clear_all_data false tsc wc).1 = false ∧
      (clear_all_data false tsc wc).2.mem.shared_data = [] ∧
      (clear_all_data false tsc wc).2.file = wc.file) := by
  refine ⟨⟨?_, get_data_set_self false ts key value tool descr w, ?_⟩,
    ⟨?_, ?_, ?_⟩, ⟨rfl, rfl, rfl⟩⟩
  · simp [set_data, save_shared_data]
  · simp [set_data, save_shared_data]
  · simp [delete_data, hpres, save_shared_data]
  · simp [delete_data, hpres, get_data, save_mem, lookupKey_eraseKey_self]
  · simp [delete_data, hpres, save_shared_data]

/-- C7 witness: with a failing save, a set of `"k"`, a delete of the
present key `"k"`, and a clear all report `False` while the mutations
stay in memory and the file keeps its old contents. -/
theorem mutation_kept_on_save_failure_w :
    ((set_data false "t" "k" (Val.str "v") none "" (fresh_sharer none)).1 =
        false ∧
      get_data (set_data false "t" "k" (Val.str "v") none ""
        (fresh_sharer none)).2 "k" = Val.str "v" ∧
      (set_data false "t" "k" (Val.str "v") none ""
        (fresh_sharer none)).2.file = (fresh_sharer none).file) ∧
    ((delete_data false "t2" "k"
        (set_data true "t0" "k" (Val.int 3) none ""
          (fresh_sharer none)).2).1 = false ∧
      get_data (delete_data false "t2" "k"
        (set_data true "t0" "k" (Val.int 3) none ""
          (fresh_sharer none)).2).2 "k" = Val.null ∧
      (delete_data false "t2" "k"
        (set_data true "t0" "k" (Val.int 3) none ""
          (fresh_sharer none)).2).2.file =
        (set_data true "t0" "k" (Val.int 3) none ""
          (fresh_sharer none)).2.file) ∧
    ((clear_all_data false "t3" (fresh_sharer none)).1 = false ∧
      (clear_all_data false "t3" (fresh_sharer none)).2.mem.shared_data =
        [] ∧
      (clear_all_data false "t3" (fresh_sharer none)).2.file =
        (fresh_sharer none).file) :=
  mutation_kept_on_save_failure "t" "t2" "t3" "k" "k" (Val.str "v") none ""
    (fresh_sharer none)
    (set_data true "t0" "k" (Val.int 3) none "" (fresh_sharer none)).2
    (fresh_sharer none)
    { value := Val.int 3, tool := none, description := "", timestamp := "t0" }
    rfl

/-- C8 counterexample: during a save of even the trivial document, a
reader can observe the truncated (partially written) file state — the
claim that every observable state is a complete document is false. -/
theorem save_atomicity_counterexample :
    FileObs.truncated ∈ save_observable_states
      { shared_data := [], data_history := [], last_updated := "t" } ∧
    FileObs.isCompleteDoc FileObs.truncated = false := by
  constructor
  · simp [save_observable_states]
  · rfl

/-- C8 as amended: every successful save writes the full document —
current values, all histories, and the timestamp — but it does so by
truncating the file in place and then writing, so the final observable
state is the complete new document while the intermediate truncated
state is also observable by a concurrent reader: the replacement is not
atomic. -/
theorem save_full_document_via_truncation (ts : String) (w : World)
    (d : FileDoc) :
    (save_shared_data true ts w).2.file =
      some { shared_data := w.mem.shared_data,
             data_history := w.mem.data_history, last_updated := ts } ∧
    (save_observable_states d).getLast? = some (FileObs.doc d) ∧
    FileObs.truncated ∈ save_observable_states d ∧
    FileObs.isCompleteDoc FileObs.truncated = false := by
  refine ⟨rfl, rfl, ?_, rfl⟩
  simp [save_observable_states]

/-- C9: saving the store and reloading the file in a fresh `DataSharer`
reproduces the current-value mapping: `get_data` agrees on every key
before and after the round trip. -/
theorem persistence_round_trip (ts : String) (w : World) (key : String) :
    get_data (fresh_sharer (save_shared_data true ts w).2.file) key =
      get_data w key := by
  simp [fresh_sharer, load_shared_data, save_shared_data, get_data]

/-- C10: a stored `None` value and an absent key are indistinguishable
through `get_data` — after `set_data key None`, `get_data key` returns
`None`, exactly what `get_data` returns on any absent key. -/
theorem null_value_indistinguishable_from_absent (ioOk : Bool)
    (ts key : String) (tool : Option String) (descr : String)
    (w w' : World) (key' : String)
    (habs : lookupKey w'.mem.shared_data key' = none) :
    get_data (set_data ioOk ts key Val.null tool descr w).2 key =
      Val.null ∧
    get_data w' key' = Val.null := by
  refine ⟨get_data_set_self ioOk ts key Val.null tool descr w, ?_⟩
  simp [get_data, habs]

/-- C10 witness: setting `"k"` to `None` in one store and asking an empty
store for `"k2"` both yield `None`. -/
theorem null_value_indistinguishable_from_absent_w :
    get_data (set_data true "t" "k" Val.null none ""
      (fresh_sharer none)).2 "k" = Val.null ∧
    get_data (fresh_sharer none) "k2" = Val.null :=
  null_value_indistinguishable_from_absent true "t" "k" none ""
    (fresh_sharer none) (fresh_sharer none) "k2" rfl

/-! ### History-trimming lemmas (C2) -/

theorem trimHistory_eq_drop (h : List HistEntry) :
    trimHistory h = h.drop (h.length - 10) := by
  unfold trimHistory
  split
  · rfl
  · rename_i hn
    rw [Nat.sub_eq_zero_of_le (by omega), List.drop_zero]

theorem trimHistory_length_le (h : List HistEntry) :
    (trimHistory h).length ≤ 10 := by
  rw [trimHistory_eq_drop, List.length_drop]
  omega

theorem trimHistory_of_le (h : List HistEntry) (hh : h.length ≤ 10) :
    trimHistory h = h := by
  rw [trimHistory_eq_drop, Nat.sub_eq_zero_of_le hh, List.drop_zero]

theorem trimHistory_append (x y : List HistEntry) :
    trimHistory (trimHistory x ++ y) = trimHistory (x ++ y) := by
  rw [trimHistory_eq_drop x, trimHistory_eq_drop, trimHistory_eq_drop,
    List.drop_append_eq_append_drop, List.drop_append_eq_append_drop,
    List.drop_drop]
  simp only [List.length_append, List.length_drop]
  congr 1
  · congr 1
    omega
  · congr 1
    omega

/-- The effect of one `set_data` call on the key's own history. -/
def histStep (h : List HistEntry) (a : SetArg) : List HistEntry :=
  trimHistory (h ++ [a.toHist])

theorem setMany_history (ioOk : Bool) (key : String) (args : List SetArg)
    (w : World) :
    get_history (setMany ioOk key args w) key =
      args.foldl histStep (get_history w key) := by
  induction args generalizing w with
  | nil => rfl
  | cons a args ih =>
      have hw : setMany ioOk key (a :: args) w =
          setMany ioOk key args
            (set_data ioOk a.ts key a.value a.tool a.description w).2 := rfl
      rw [hw, ih, List.foldl_cons]
      congr 1
      rw [get_history_set_self]
      rfl

theorem foldl_histStep (args : List SetArg) (h : List HistEntry)
    (hh : h.length ≤ 10) :
    args.foldl histStep h = trimHistory (h ++ args.map SetArg.toHist) := by
  induction args generalizing h with
  | nil => simp [trimHistory_of_le h hh]
  | cons a args ih =>
      rw [List.foldl_cons,
        show histStep h a = trimHistory (h ++ [a.toHist]) from rfl] at *
      rw [ih (trimHistory (h ++ [a.toHist])) (trimHistory_length_le _),
        trimHistory_append]
      simp

theorem applyOp_history_le (op : Op) (w : World)
    (h : ∀ k, (get_history w k).length ≤ 10) :
    ∀ k, (get_history (applyOp op w) k).length ≤ 10 := by
  intro k
  cases op with
  | set ioOk ts key value tool descr =>
      by_cases hk : key = k
      · subst hk
        have : applyOp (Op.set ioOk ts key value tool descr) w =
            (set_data ioOk ts key value tool descr w).2 := rfl
        rw [this, get_history_set_self]
        exact trimHistory_length_le _
      · have : applyOp (Op.set ioOk ts key value tool descr) w =
            (set_data ioOk ts key value tool descr w).2 := rfl
        rw [this, get_history_set_ne ioOk ts key k value tool descr w hk]
        exact h k
  | delete ioOk ts key =>
      have : applyOp (Op.delete ioOk ts key) w =
          (delete_data ioOk ts key w).2 := rfl
      rw [this, get_history_delete]
      exact h k
  | clear ioOk ts =>
      have : applyOp (Op.clear ioOk ts) w = (clear_all_data ioOk ts w).2 := rfl
      rw [this, get_history_clear]
      exact h k

theorem applyOps_history_le (ops : List Op) (w : World)
    (h : ∀ k, (get_history w k).length ≤ 10) :
    ∀ k, (get_history (applyOps ops w) k).length ≤ 10 := by
  induction ops generalizing w with
  | nil => exact h
  | cons op rest ih => exact ih (applyOp op w) (applyOp_history_le op w h)

/-- C2: starting from an empty history for a key, 11 sequential
`set_data` calls on it leave `get_history key` with exactly the history
records of the 10 most recent calls in insertion order — the oldest of
the 11 is evicted — of length exactly 10; and from any state whose
per-key histories are within the cap, no sequence of operations ever
pushes a history past length 10. -/
theorem history_after_eleven_sets (ioOk : Bool) (key : String)
    (args : List SetArg) (w : World) (h0 : get_history w key = [])
    (h11 : args.length = 11)
    (hinv : ∀ k, (get_history w k).length ≤ 10) :
    get_history (setMany ioOk key args w) key =
      (args.drop 1).map SetArg.toHist ∧
    (get_history (setMany ioOk key args w) key).length = 10 ∧
    ∀ ops k, (get_history (applyOps ops w) k).length ≤ 10 := by
  have hmain : get_history (setMany ioOk key args w) key =
      (args.map SetArg.toHist).drop 1 := by
    rw [setMany_history, h0, foldl_histStep args [] (by simp),
      List.nil_append, trimHistory_eq_drop]
    simp [h11]
  refine ⟨?_, ?_, fun ops k => applyOps_history_le ops w hinv k⟩
  · rw [hmain, List.map_drop]
  · rw [hmain]
    simp [h11]

/-- C2 witness: 11 concrete sets of `"k"` on a fresh store leave a
10-record history holding the 2nd through 11th values in order. -/
theorem history_after_eleven_sets_w :
    get_history (setMany true "k"
      [{ value := Val.int 1, tool := none, description := "", ts := "t1" },
       { value := Val.int 2, tool := none, description := "", ts := "t2" },
       { value := Val.int 3, tool := none, description := "", ts := "t3" },
       { value := Val.int 4, tool := none, description := "", ts := "t4" },
       { value := Val.int 5, tool := none, description := "", ts := "t5" },
       { value := Val.int 6, tool := none, description := "", ts := "t6" },
       { value := Val.int 7, tool := none, description := "", ts := "t7" },
       { value := Val.int 8, tool := none, description := "", ts := "t8" },
       { value := Val.int 9, tool := none, description := "", ts := "t9" },
       { value := Val.int 10, tool := none, description := "", ts := "t10" },
       { value := Val.int 11, tool := none, description := "", ts := "t11" }]
      (fresh_sharer none)) "k" =
      [{ value := Val.int 2, tool := none, timestamp := "t2" },
       { value := Val.int 3, tool := none, timestamp := "t3" },
       { value := Val.int 4, tool := none, timestamp := "t4" },
       { value := Val.int 5, tool := none, timestamp := "t5" },
       { value := Val.int 6, tool := none, timestamp := "t6" },
       { value := Val.int 7, tool := none, timestamp := "t7" },
       { value := Val.int 8, tool := none, timestamp := "t8" },
       { value := Val.int 9, tool := none, timestamp := "t9" },
       { value := Val.int 10, tool := none, timestamp := "t10" },
       { value := Val.int 11, tool := none, timestamp := "t11" }] ∧
    (get_history (setMany true "k"
      [{ value := Val.int 1, tool := none, description := "", ts := "t1" },
       { value := Val.int 2, tool := none, description := "", ts := "t2" },
       { value := Val.int 3, tool := none, description := "", ts := "t3" },
       { value := Val.int 4, tool := none, description := "", ts := "t4" },
       { value := Val.int 5, tool := none, description := "", ts := "t5" },
       { value := Val.int 6, tool := none, description := "", ts := "t6" },
       { value := Val.int 7, tool := none, description := "", ts := "t7" },
       { value := Val.int 8, tool := none, description := "", ts := "t8" },
       { value := Val.int 9, tool := none, description := "", ts := "t9" },
       { value := Val.int 10, tool := none, description := "", ts := "t10" },
       { value := Val.int 11, tool := none, description := "", ts := "t11" }]
      (fresh_sharer none)) "k").length = 10 := by
  have h := history_after_eleven_sets true "k"
    [{ value := Val.int 1, tool := none, description := "", ts := "t1" },
     { value := Val.int 2, tool := none, description := "", ts := "t2" },
     { value := Val.int 3, tool := none, description := "", ts := "t3" },
     { value := Val.int 4, tool := none, description := "", ts := "t4" },
     { value := Val.int 5, tool := none, description := "", ts := "t5" },
     { value := Val.int 6, tool := none, description := "", ts := "t6" },
     { value := Val.int 7, tool := none, description := "", ts := "t7" },
     { value := Val.int 8, tool := none, description := "", ts := "t8" },
     { value := Val.int 9, tool := none, description := "", ts := "t9" },
     { value := Val.int 10, tool := none, description := "", ts := "t10" },
     { value := Val.int 11, tool := none, description := "", ts := "t11" }]
    (fresh_sharer none) rfl rfl
    (fun k => by simp [get_history, fresh_sharer, load_shared_data, lookupKey])
  exact ⟨h.1, h.2.1⟩

/-! ### Further association-list lemmas (registry scan) -/

theorem lookupKey_append {α : Type} (a b : List (String × α)) (k : String) :
    lookupKey (a ++ b) k =
      match lookupKey a k with
      | some v => some v
      | none => lookupKey b k := by
  induction a with
  | nil => simp [lookupKey]
  | cons p rest ih =>
      obtain ⟨x, y⟩ := p
      by_cases h : x = k
      · simp [lookupKey, h]
      · simp [lookupKey, h, ih]

theorem setKey_eq_of_lookup {α : Type} (l : List (String × α)) (k : String)
    (v : α) (h : lookupKey l k = some v) : setKey l k v = l := by
  induction l with
  | nil => simp [lookupKey] at h
  | cons p rest ih =>
      obtain ⟨x, y⟩ := p
      by_cases hx : x = k
      · simp only [lookupKey, hx, if_pos rfl] at h
        obtain rfl : y = v := by injection h
        simp [setKey, hx]
      · simp only [lookupKey, hx, if_neg hx] at h
        simp [setKey, hx, ih h]

theorem setKey_append_of_absent {α : Type} (l : List (String × α))
    (k : String) (v : α) (h : lookupKey l k = none) :
    setKey l k v = l ++ [(k, v)] := by
  induction l with
  | nil => simp [setKey]
  | cons p rest ih =>
      obtain ⟨x, y⟩ := p
      by_cases hx : x = k
      · simp [lookupKey, hx] at h
      · simp only [lookupKey, hx, if_neg hx] at h
        simp [setKey, hx, ih h]

theorem setKey_setKey {α : Type} (l : List (String × α)) (k : String)
    (v v' : α) : setKey (setKey l k v) k v' = setKey l k v' := by
  induction l with
  | nil => simp [setKey]
  | cons p rest ih =>
      obtain ⟨x, y⟩ := p
      by_cases hx : x = k
      · simp [setKey, hx]
      · simp [setKey, hx, ih]

theorem loadFiles_spec (ok : String → String → Bool) (cat : String)
    (files : List String) :
    ∀ (st : LoadState) (cur : List (String × String)),
      lookupKey st.tools cat = some cur →
      (toolNames files).Nodup →
      (∀ t ∈ toolNames files, lookupKey cur t = none) →
      (loadFiles ok cat files st).tools =
        setKey st.tools cat (cur ++ okEntries ok cat files) ∧
      (loadFiles ok cat files st).loaded =
        st.loaded + (toolNames files).countP (ok cat) ∧
      (loadFiles ok cat files st).failed =
        st.failed + (toolNames files).countP (fun t => !(ok cat t)) := by
  induction files with
  | nil =>
      intro st cur hlk _ _
      simp [loadFiles, toolNames, eligibleFiles, okEntries,
        setKey_eq_of_lookup st.tools cat cur hlk]
  | cons f rest ih =>
      intro st cur hlk hnd hdisj
      by_cases hf : (pyEndsWith f ".py" && !(pyStartsWith f "__")) = true
      · have htn : toolNames (f :: rest) =
            pyDropRight f 3 :: toolNames rest := by
          simp [toolNames, eligibleFiles, List.filter_cons, hf]
        rw [htn] at hnd hdisj
        have hmem : pyDropRight f 3 ∉ toolNames rest :=
          (List.nodup_cons.mp hnd).1
        have hndr : (toolNames rest).Nodup := (List.nodup_cons.mp hnd).2
        have habs : lookupKey cur (pyDropRight f 3) = none :=
          hdisj _ (List.mem_cons_self _ _)
        by_cases hok : ok cat (pyDropRight f 3) = true
        · have hset : setInner st.tools cat (pyDropRight f 3)
              (modPath cat (pyDropRight f 3)) =
              setKey st.tools cat (cur ++ [(pyDropRight f 3,
                modPath cat (pyDropRight f 3))]) := by
            rw [setInner, hlk]
            simp [setKey_append_of_absent cur (pyDropRight f 3) _ habs]
          have hstep : loadFiles ok cat (f :: rest) st =
              loadFiles ok cat rest
                ⟨setKey st.tools cat (cur ++ [(pyDropRight f 3,
                    modPath cat (pyDropRight f 3))]),
                  st.loaded + 1, st.failed⟩ := by
            simp [loadFiles, hf, hok, hset]
          have hoe : okEntries ok cat (f :: rest) =
              (pyDropRight f 3, modPath cat (pyDropRight f 3)) ::
                okEntries ok cat rest := by
            simp [okEntries, toolNames, eligibleFiles, List.filter_cons,
              hf, hok]
          have hdisj' : ∀ t ∈ toolNames rest,
              lookupKey (cur ++ [(pyDropRight f 3,
                modPath cat (pyDropRight f 3))]) t = none := by
            intro t ht
            have hne : pyDropRight f 3 ≠ t := fun heq => hmem (heq ▸ ht)
            simp [lookupKey_append, hdisj t (List.mem_cons_of_mem _ ht),
              lookupKey, hne]
          obtain ⟨h1, h2, h3⟩ := ih
            ⟨setKey st.tools cat (cur ++ [(pyDropRight f 3,
                modPath cat (pyDropRight f 3))]),
              st.loaded + 1, st.failed⟩
            (cur ++ [(pyDropRight f 3, modPath cat (pyDropRight f 3))])
            (lookupKey_setKey_self _ _ _) hndr hdisj'
          refine ⟨?_, ?_, ?_⟩
          · rw [hstep, h1, setKey_setKey, hoe, List.append_assoc,
              List.singleton_append]
          · rw [hstep, h2, htn, List.countP_cons_of_pos _ _ hok]
            dsimp only
            omega
          · rw [hstep, h3, htn, List.countP_cons_of_neg]
            simp [hok]
        · have hstep : loadFiles ok cat (f :: rest) st =
              loadFiles ok cat rest ⟨st.tools, st.loaded, st.failed + 1⟩ := by
            simp [loadFiles, hf, hok]
          have hoe : okEntries ok cat (f :: rest) =
              okEntries ok cat rest := by
            simp [okEntries, toolNames, eligibleFiles, List.filter_cons,
              hf, hok]
          obtain ⟨h1, h2, h3⟩ := ih ⟨st.tools, st.loaded, st.failed + 1⟩
            cur hlk hndr (fun t ht => hdisj t (List.mem_cons_of_mem _ ht))
          refine ⟨?_, ?_, ?_⟩
          · rw [hstep, h1, hoe]
          · rw [hstep, h2, htn, List.countP_cons_of_neg _ _ (by simp [hok])]
          · rw [hstep, h3, htn, List.countP_cons_of_pos]
            · dsimp only
              omega
            · simp [hok]
      · have hstep : loadFiles ok cat (f :: rest) st =
            loadFiles ok cat rest st := by
          simp [loadFiles, hf]
        have htn : toolNames (f :: rest) = toolNames rest := by
          simp [toolNames, eligibleFiles, List.filter_cons, hf]
        have hoe : okEntries ok cat (f :: rest) = okEntries ok cat rest := by
          simp [okEntries, htn]
        rw [htn] at hnd hdisj
        obtain ⟨h1, h2, h3⟩ := ih st cur hlk hnd hdisj
        exact ⟨by rw [hstep, h1, hoe], by rw [hstep, h2, htn],
          by rw [hstep, h3, htn]⟩

theorem loadCats_spec (ok : String → String → Bool)
    (entries : List FsEntry) :
    ∀ st : LoadState,
      (catNames entries).Nodup →
      (∀ e ∈ entries, dirOk e = true) →
      (∀ n ∈ catNames entries, lookupKey st.tools n = none) →
      (loadCats ok entries st).tools = st.tools ++ expectedTools ok entries ∧
      (loadCats ok entries st).loaded =
        st.loaded + (scannedScripts entries).countP (fun p => ok p.1 p.2) ∧
      (loadCats ok entries st).failed =
        st.failed +
          (scannedScripts entries).countP (fun p => !(ok p.1 p.2)) := by
  induction entries with
  | nil =>
      intro st _ _ _
      simp [loadCats, expectedTools, scannedScripts]
  | cons e rest ih =>
      intro st hnd hdir habs
      cases e with
      | file name =>
          obtain ⟨g1, g2, g3⟩ := ih st hnd
            (fun x hx => hdir x (List.mem_cons_of_mem _ hx)) habs
          exact ⟨g1, g2, g3⟩
      | dir name files =>
          by_cases hdun : (!(pyStartsWith name "__")) = true
          · have hcn : catNames (FsEntry.dir name files :: rest) =
                name :: catNames rest := by
              simp [catNames, hdun]
            rw [hcn] at hnd habs
            have hnmem : name ∉ catNames rest := (List.nodup_cons.mp hnd).1
            have hndr : (catNames rest).Nodup := (List.nodup_cons.mp hnd).2
            have hlnone : lookupKey st.tools name = none :=
              habs name (List.mem_cons_self _ _)
            have hdirnd : (toolNames files).Nodup := by
              have := hdir _ (List.mem_cons_self _ _)
              simpa [dirOk] using this
            have hstep : loadCats ok (FsEntry.dir name files :: rest) st =
                loadCats ok rest (loadFiles ok name files
                  ⟨setKey st.tools name [], st.loaded, st.failed⟩) := by
              simp [loadCats, hdun]
            obtain ⟨f1, f2, f3⟩ := loadFiles_spec ok name files
              ⟨setKey st.tools name [], st.loaded, st.failed⟩ []
              (lookupKey_setKey_self _ _ _) hdirnd
              (fun t _ => rfl)
            have htools2 : (loadFiles ok name files
                ⟨setKey st.tools name [], st.loaded, st.failed⟩).tools =
                st.tools ++ [(name, okEntries ok name files)] := by
              rw [f1]
              dsimp only
              rw [setKey_setKey, List.nil_append,
                setKey_append_of_absent st.tools name _ hlnone]
            have habs2 : ∀ n ∈ catNames rest,
                lookupKey (loadFiles ok name files
                  ⟨setKey st.tools name [], st.loaded, st.failed⟩).tools n =
                  none := by
              intro n hn
              have hne : name ≠ n := fun heq => hnmem (heq ▸ hn)
              rw [htools2, lookupKey_append, habs n (List.mem_cons_of_mem _ hn)]
              simp [lookupKey, hne]
            obtain ⟨g1, g2, g3⟩ := ih
              (loadFiles ok name files
                ⟨setKey st.tools name [], st.loaded, st.failed⟩)
              hndr (fun x hx => hdir x (List.mem_cons_of_mem _ hx)) habs2
            have hexp : expectedTools ok (FsEntry.dir name files :: rest) =
                (name, okEntries ok name files) :: expectedTools ok rest := by
              simp [expectedTools, hdun]
            have hsc : scannedScripts (FsEntry.dir name files :: rest) =
                (eligibleFiles files).map (fun f => (name, pyDropRight f 3))
                  ++ scannedScripts rest := by
              simp [scannedScripts, hdun]
            refine ⟨?_, ?_, ?_⟩
            · rw [hstep, g1, htools2, hexp, List.append_assoc,
                List.singleton_append]
            · rw [hstep, g2, f2, hsc, List.countP_append]
              dsimp only
              rw [List.countP_map]
              simp [toolNames, List.countP_map, Function.comp_def]
              omega
            · rw [hstep, g3, f3, hsc, List.countP_append]
              dsimp only
              rw [List.countP_map]
              simp [toolNames, List.countP_map, Function.comp_def]
              omega
          · have hcn : catNames (FsEntry.dir name files :: rest) =
                catNames rest := by
              simp [catNames, hdun]
            rw [hcn] at hnd habs
            have hstep : loadCats ok (FsEntry.dir name files :: rest) st =
                loadCats ok rest st := by
              simp [loadCats, hdun]
            have hexp : expectedTools ok (FsEntry.dir name files :: rest) =
                expectedTools ok rest := by
              simp [expectedTools, hdun]
            have hsc : scannedScripts (FsEntry.dir name files :: rest) =
                scannedScripts rest := by
              simp [scannedScripts, hdun]
            obtain ⟨g1, g2, g3⟩ := ih st hnd
              (fun x hx => hdir x (List.mem_cons_of_mem _ hx)) habs
            exact ⟨by rw [hstep, g1, hexp], by rw [hstep, g2, hsc],
              by rw [hstep, g3, hsc]⟩

theorem load_tools_spec (ok : String → String → Bool)
    (listing : List FsEntry) (hg : goodListing listing) :
    (load_tools ok listing).tools = expectedTools ok listing ∧
    (load_tools ok listing).loaded =
      (scannedScripts listing).countP (fun p => ok p.1 p.2) ∧
    (load_tools ok listing).failed =
      (scannedScripts listing).countP (fun p => !(ok p.1 p.2)) := by
  obtain ⟨h1, h2⟩ := hg
  obtain ⟨g1, g2, g3⟩ := loadCats_spec ok listing ⟨[], 0, 0⟩ h1 h2
    (fun n _ => rfl)
  exact ⟨by simpa using g1, by simpa using g2, by simpa using g3⟩

theorem mappingSize_expectedTools (ok : String → String → Bool)
    (entries : List FsEntry) :
    mappingSize (expectedTools ok entries) =
      (scannedScripts entries).countP (fun p => ok p.1 p.2) := by
  induction entries with
  | nil => rfl
  | cons e rest ih =>
      cases e with
      | file name => simpa [expectedTools, scannedScripts] using ih
      | dir name files =>
          by_cases hdun : (!(pyStartsWith name "__")) = true
          · have hlen : (okEntries ok name files).length =
                List.countP (fun p => ok p.1 p.2)
                  ((eligibleFiles files).map (fun f => (name, pyDropRight f 3))) := by
              rw [okEntries, List.length_map, ← List.countP_eq_length_filter,
                toolNames, List.countP_map, List.countP_map]
              simp [Function.comp_def]
            simp only [expectedTools, scannedScripts, hdun, if_pos,
              if_true, mappingSize, List.map_cons, List.sum_cons,
              List.countP_append]
            rw [← mappingSize, ih, hlen]
          · simpa [expectedTools, scannedScripts, hdun] using ih

/-- C5: over any well-formed tools directory, the scan loads exactly the
scripts whose import succeeds and records exactly the failures: the
`loaded` counter equals the number of scanned scripts whose import
succeeds, the `failed` counter equals the number whose import raises,
and the result mapping holds exactly `loaded` tool entries — a
failed import is excluded without aborting the scan of the remaining
tools. -/
theorem load_tools_counts (ok : String → String → Bool)
    (listing : List FsEntry) (hg : goodListing listing) :
    (load_tools ok listing).loaded =
      (scannedScripts listing).countP (fun p => ok p.1 p.2) ∧
    (load_tools ok listing).failed =
      (scannedScripts listing).countP (fun p => !(ok p.1 p.2)) ∧
    mappingSize (load_tools ok listing).tools =
      (load_tools ok listing).loaded := by
  obtain ⟨h1, h2, h3⟩ := load_tools_spec ok listing hg
  exact ⟨h2, h3, by rw [h1, mappingSize_expectedTools, h2]⟩

/-- C5 witness: a directory with three eligible scripts of which one
(`b`) fails to import yields 2 loaded entries and 1 recorded failure;
the failure does not stop `a` and `_c` from loading. -/
theorem load_tools_counts_w :
    (load_tools (fun _ t => !(t == "b"))
      [FsEntry.dir "sys" ["a.py", "b.py", "_c.py", "readme.txt"],
       FsEntry.file "stray.py",
       FsEntry.dir "__pycache__" ["x.py"]]).loaded = 2 ∧
    (load_tools (fun _ t => !(t == "b"))
      [FsEntry.dir "sys" ["a.py", "b.py", "_c.py", "readme.txt"],
       FsEntry.file "stray.py",
       FsEntry.dir "__pycache__" ["x.py"]]).failed = 1 ∧
    mappingSize (load_tools (fun _ t => !(t == "b"))
      [FsEntry.dir "sys" ["a.py", "b.py", "_c.py", "readme.txt"],
       FsEntry.file "stray.py",
       FsEntry.dir "__pycache__" ["x.py"]]).tools = 2 := by
  have h := load_tools_counts (fun _ t => !(t == "b"))
    [FsEntry.dir "sys" ["a.py", "b.py", "_c.py", "readme.txt"],
     FsEntry.file "stray.py",
     FsEntry.dir "__pycache__" ["x.py"]] (by exact ⟨by decide, by decide⟩)
  refine ⟨h.1.trans (by decide), h.2.1.trans (by decide), ?_⟩
  rw [h.2.2, h.1]
  decide

/-- C6 counterexample: the scan does not exclude files whose name starts
with a single underscore — `_hidden.py` is private-named (starts with
`"_"`, not with `"__"`), yet the scan imports it and puts
`_hidden` into the result mapping. -/
theorem private_named_file_is_scanned :
    lookupKey (load_tools (fun _ _ => true)
      [FsEntry.dir "cat" ["_hidden.py"]]).tools "cat" =
      some [("_hidden", "python_toolbox.tools.cat._hidden")] ∧
    pyStartsWith "_hidden.py" "_" = true ∧
    pyStartsWith "_hidden.py" "__" = false := by
  refine ⟨by decide, by decide, by decide⟩

/-- C6 as amended: over any well-formed tools directory, the scan treats
exactly the immediate children that are directories and whose name does
not start with `__` as categories, and within each scans exactly the
`.py` files whose name does not start with `__`, importing each included
script as `python_toolbox.tools.category.toolname`; only dunder-prefixed
names are excluded — a name starting with a single underscore is
scanned. -/
theorem load_tools_enumeration (ok : String → String → Bool)
    (listing : List FsEntry) (hg : goodListing listing) :
    (load_tools ok listing).tools = expectedTools ok listing :=
  (load_tools_spec ok listing hg).1

/-- C6 witness: a listing with an eligible file, a single-underscore
file, a dunder file, a non-`.py` file, a stray top-level file and a
dunder directory produces exactly the two tools `x` and `_y` under
category `alpha`. -/
theorem load_tools_enumeration_w :
    (load_tools (fun _ _ => true)
      [FsEntry.dir "alpha" ["x.py", "_y.py", "__init__.py", "notes.txt"],
       FsEntry.file "stray.py",
       FsEntry.dir "__pycache__" ["z.py"]]).tools =
      [("alpha", [("x", "python_toolbox.tools.alpha.x"),
                  ("_y", "python_toolbox.tools.alpha._y")])] := by
  have h := load_tools_enumeration (fun _ _ => true)
    [FsEntry.dir "alpha" ["x.py", "_y.py", "__init__.py", "notes.txt"],
     FsEntry.file "stray.py",
     FsEntry.dir "__pycache__" ["z.py"]] (by exact ⟨by decide, by decide⟩)
  rw [h]
  decide

end Toolbox
